import Mathlib

/-!
Verification of the statistical positioning logic of `src/gasprice.py`
(the Price Distribution Analyzer of the spec).

The analyzed code is the inline body of `main` for the Gasoline / Diesel /
LPG branch: the global statistics block (lines 126-131), the position
grouping (lines 157-178), the standard-deviation bands (lines 244-251)
and the quartile / outlier analysis (lines 281-316).

Python floats are modelled as rationals (`ℚ`); numpy's NaN (which the mean
and standard deviation of an empty array produce) is modelled as `none`
where it matters.  The standard deviation itself is a square root, hence
irrational in general; theorems about the classification logic are stated
parametrically in the `sigma` value the code computed, and concrete tables
carry explicit bounds on `Real.sqrt` of the (rational) variance.
-/

namespace Gasprice

/-- A price table: the `(Country, Price)` rows of the scraped dataframe `df`. -/
abbrev Table := List (String × ℚ)

/-- The `Price` column, `df['Price'].values`. -/
def prices (t : Table) : List ℚ := t.map Prod.snd

/-- Embedding of `df[df['Country'] == country]['Price'].values[0]`
(src/gasprice.py line 167): the price of the first row whose country equals
`c` exactly (pandas `==` is a case-sensitive exact string comparison), or
`none` when no row matches (in Python, `.values[0]` then raises IndexError). -/
def lookupPrice (t : Table) (c : String) : Option ℚ :=
  ((t.filter (fun r => r.1 = c)).head?).map Prod.snd

/-- Arithmetic mean, the `np.mean(petrol_head)` inside src line 127.  The
code then rounds this to 3 decimals before using it — see `round3` and
`mu` below for that step.  On the empty list ℚ's division by zero yields
`0`; numpy instead yields NaN — see `muOfTable`, which models that case
faithfully. -/
def mean (xs : List ℚ) : ℚ := xs.sum / xs.length

/-- Population variance (denominator `N`), the square of `np.std`
(src line 128): the mean of the squared deviations from the mean. -/
def variance (xs : List ℚ) : ℚ :=
  ((xs.map (fun x => (x - mean xs) ^ 2)).sum) / xs.length

/-- The global average `mu` as the code computes it at line 127, with
numpy's NaN-on-empty modelled as `none`: `np.mean` of an empty array
returns NaN (it raises nothing), and the code performs no emptiness check. -/
def muOfTable (t : Table) : Option ℚ :=
  if t.isEmpty then none else some (mean (prices t))

/-- Ascending sort of the prices, as used implicitly by the
linear-interpolation quantile method of `Series.quantile` / `median`. -/
def sortPrices (xs : List ℚ) : List ℚ := xs.insertionSort (· ≤ ·)

/-- Linear interpolation into a (sorted) list at fractional index `h`:
with `i = ⌊h⌋`, returns `s[i] + (h - i) * (s[i+1] - s[i])`, reading an
out-of-range `s[i+1]` as `s[i]` (which is never reached when `h` is an
in-range index, since the factor `h - i` is then `0`). -/
def interp (s : List ℚ) (h : ℚ) : ℚ :=
  let i : ℕ := (⌊h⌋).toNat
  let lo := s.getD i 0
  let hi := s.getD (i + 1) lo
  lo + (h - (i : ℚ)) * (hi - lo)

/-- Embedding of `df['Price'].quantile(q)` (src lines 281-283), pandas'
default linear-interpolation percentile method: interpolate the sorted
prices at fractional index `q * (N - 1)`.  `median()` is `quantile 0.5`. -/
def quantile (xs : List ℚ) (q : ℚ) : ℚ :=
  interp (sortPrices xs) (q * ((xs.length : ℚ) - 1))

/-- Embedding of the distribution-band classification (src lines 244-251):
the branch of the loop body that files a country's price `value` into
`dist_groups` given the code's `mu` and `sigma`. -/
def std_dev_band (mu sigma value : ℚ) : String :=
  if value > mu + sigma then "Above 1 Std Dev"
  else if value < mu - sigma then "Below 1 Std Dev"
  else "Within 1 Std Dev"

/-- Embedding of the quartile classification (src lines 290-306): the
`if value < q1 / elif value < median / elif value < q3 / else` chain. -/
def quartile_bucket (q1 median q3 value : ℚ) : String :=
  if value < q1 then "Lowest Quartile (Q1)"
  else if value < median then "Second Quartile (Q2)"
  else if value < q3 then "Third Quartile (Q3)"
  else "Highest Quartile (Q4)"

/-- Embedding of the outlier test (src lines 284-287 and 307): with
`iqr = q3 - q1`, `lower_bound = q1 - 1.5*iqr`, `upper_bound = q3 + 1.5*iqr`,
a value is an outlier iff `value < lower_bound or value > upper_bound`. -/
def is_outlier (q1 q3 value : ℚ) : Bool :=
  let iqr := q3 - q1
  let lower_bound := q1 - 1.5 * iqr
  let upper_bound := q3 + 1.5 * iqr
  decide (value < lower_bound) || decide (value > upper_bound)

/-- Embedding of the position grouping (src lines 157-178): with
`o_std = sigma + mu`, `nv_mu_80 = mu - sigma`, `nv_mu_95 = mu - 2*sigma`,
the `if/elif` chain assigns a country's `value` to at most one of the five
`position_groups`; `none` means no branch fired, so the country is put in
no group. -/
def position_group (mu sigma value : ℚ) : Option String :=
  let o_std := sigma + mu
  let nv_mu_80 := mu - sigma
  let nv_mu_95 := mu - 2 * sigma
  if value < o_std ∧ value > mu then some "close_to_68_1"
  else if value < mu ∧ value > nv_mu_80 then some "close_to_68_2"
  else if value < nv_mu_80 ∧ value > nv_mu_95 then some "less_than_80"
  else if value < nv_mu_95 then some "less_than_95"
  else if value > o_std then some "more_than_80"
  else none

/-- The contents of one named position group after the loop of src lines
165-178: the selected countries whose price lands in group `g`, in the
order they were supplied (the loop appends in iteration order). -/
def position_groups (mu sigma : ℚ) (data : List (String × ℚ)) (g : String) :
    List String :=
  (data.filter (fun r => position_group mu sigma r.2 = some g)).map Prod.fst

/-- Round half to even (Python's built-in `round`, used on analyzer
percentages), written on ℚ with an explicit floor. -/
def roundHalfEven (q : ℚ) : ℤ :=
  if q - ⌊q⌋ < 1 / 2 then ⌊q⌋
  else if 1 / 2 < q - ⌊q⌋ then ⌊q⌋ + 1
  else if ⌊q⌋ % 2 = 0 then ⌊q⌋ else ⌊q⌋ + 1

/-- The `round(·, 3)` applied to the mean and standard deviation at src
lines 127-128: round to 3 decimal places, halves to even. -/
def round3 (q : ℚ) : ℚ := (roundHalfEven (q * 1000) : ℚ) / 1000

/-- The code's global average `mu = round(float(np.mean(petrol_head)), 3)`
(src line 127): the arithmetic mean rounded to 3 decimals.  This rounded
value — not the exact mean — is what every later band comparison uses. -/
def mu (xs : List ℚ) : ℚ := round3 (mean xs)

/-- Modelled from the spec: `percentile_rank` = (count of prices ≤ this
price) / N, expressed as a percentage, rounded to 1 decimal.  The reference
code under `src/` computes no percentile rank; this realizes the spec's
formula (§4.1), with Python's round-half-to-even as the rounding. -/
def percentileRank (xs : List ℚ) (v : ℚ) : ℚ :=
  ((roundHalfEven (100 * (xs.countP (fun p => decide (p ≤ v)) : ℚ)
      / (xs.length : ℚ) * 10) : ℚ)) / 10

/-- The spec's `DistributionStats` record (§3), as handed to
`assess_country`; `std_dev` is the (already computed) population standard
deviation, carried as a value since it is irrational in general. -/
structure DistributionStats where
  mean : ℚ
  std_dev : ℚ
  q1 : ℚ
  median : ℚ
  q3 : ℚ

/-- The spec's per-country `CountryAssessment` (§3), restricted to the
classification fields the analyzed logic produces. -/
structure CountryAssessment where
  percentile_rank : ℚ
  std_dev_band : String
  quartile_bucket : String
  is_outlier : Bool

/-- The spec's analyzer error taxonomy (§7): `EmptyTableError` and
`CountryNotFoundError`.  (`InvalidPriceError` concerns the fetch layer,
out of scope here.) -/
inductive AnalyzerError
  | emptyTable
  | countryNotFound
  deriving DecidableEq

/-- Modelled from the spec: `assess_country(table, stats, country)` (§4.1),
failing with `CountryNotFoundError` when the country is absent.  The
reference code (src lines 165-180) realizes the error case as the
IndexError of `.values[0]` on an empty selection, caught by the loop's
handler, which reports the country and skips it — no default assessment is
produced.  The lookup itself, `lookupPrice`, is the code's (case-sensitive,
exact) dataframe match. -/
def assess_country (stats : DistributionStats) (t : Table) (c : String) :
    Except AnalyzerError CountryAssessment :=
  match lookupPrice t c with
  | none => .error .countryNotFound
  | some value => .ok
      { percentile_rank := percentileRank (prices t) value
        std_dev_band := std_dev_band stats.mean stats.std_dev value
        quartile_bucket := quartile_bucket stats.q1 stats.median stats.q3 value
        is_outlier := is_outlier stats.q1 stats.q3 value }

/-- The spec's worked example table: prices 1.0, 2.0, 3.0, 4.0, 100.0. -/
def table5 : Table := [("A", 1), ("B", 2), ("C", 3), ("D", 4), ("E", 100)]

/-- A five-row table with evenly spaced prices, whose first quartile (2)
is itself a price in the table. -/
def tableB : Table := [("A", 1), ("B", 2), ("C", 3), ("D", 4), ("E", 5)]

/-- A six-row table of distinct prices 1..6. -/
def table6 : Table :=
  [("A", 1), ("B", 2), ("C", 3), ("D", 4), ("E", 5), ("F", 6)]

/-- The spec's uniform example table: five countries all priced 2.0. -/
def tableU : Table := [("A", 2), ("B", 2), ("C", 2), ("D", 2), ("E", 2)]

/-- A uniform table whose common price 2.0004 is not on the 0.001 grid:
line 127 rounds its mean down to 2.0. -/
def tableV : Table :=
  [("A", 2.0004), ("B", 2.0004), ("C", 2.0004), ("D", 2.0004), ("E", 2.0004)]

/-! ## Supporting lemmas -/

/-- The interpolation index `⌊h⌋.toNat` is in range for `0 ≤ h ≤ n - 1`. -/
theorem floor_index_lt {n : ℕ} (hn : 1 ≤ n) {h : ℚ}
    (hup : h ≤ (n : ℚ) - 1) : (⌊h⌋).toNat < n := by
  have h1 : ((n - 1 : ℕ) : ℚ) = (n : ℚ) - 1 := Nat.cast_pred (by omega)
  have h2 : ⌊h⌋ ≤ ((n - 1 : ℕ) : ℤ) := by
    have h3 := Int.floor_mono (hup.trans_eq h1.symm)
    simpa using h3
  have h4 : (⌊h⌋).toNat ≤ n - 1 := Int.toNat_le.mpr h2
  omega

/-- Cast of the interpolation index back to ℚ, for nonnegative `h`. -/
theorem toNat_floor_cast {h : ℚ} (h0 : 0 ≤ h) :
    (((⌊h⌋).toNat : ℕ) : ℚ) = ((⌊h⌋ : ℤ) : ℚ) := by
  exact_mod_cast congrArg (fun z : ℤ => (z : ℚ))
    (Int.toNat_of_nonneg (Int.floor_nonneg.mpr h0))

/-- Reading an in-range index with `getD` ignores the default. -/
theorem getD_of_lt (l : List ℚ) (d : ℚ) {n : ℕ} (h : n < l.length) :
    l.getD n d = l[n] := by
  rw [List.getD_eq_getElem?_getD, List.getElem?_eq_getElem h]
  rfl

/-- Reading an out-of-range index with `getD` returns the default. -/
theorem getD_of_ge (l : List ℚ) (d : ℚ) {n : ℕ} (h : l.length ≤ n) :
    l.getD n d = d := by
  rw [List.getD_eq_getElem?_getD, List.getElem?_eq_none h]
  rfl

/-- In a `≤`-sorted list, `getD` (with default 0) is monotone over in-range
indices. -/
theorem getD_sorted_mono {s : List ℚ} (hs : s.Sorted (· ≤ ·)) {i j : ℕ}
    (hij : i ≤ j) (hj : j < s.length) : s.getD i 0 ≤ s.getD j 0 := by
  have hi : i < s.length := Nat.lt_of_le_of_lt hij hj
  rw [getD_of_lt _ _ hi, getD_of_lt _ _ hj]
  rcases Nat.lt_or_ge i j with hlt | hge
  · exact List.pairwise_iff_getElem.mp hs i j hi hj hlt
  · have heq : i = j := Nat.le_antisymm hij hge
    subst heq
    exact le_refl _

/-- In a sorted list, the `hi` element read by `interp` is at least the
`lo` element. -/
theorem getD_succ_self_le {s : List ℚ} (hs : s.Sorted (· ≤ ·)) {k : ℕ}
    (_hk : k < s.length) : s.getD k 0 ≤ s.getD (k + 1) (s.getD k 0) := by
  rcases Nat.lt_or_ge (k + 1) s.length with hk1 | hk1
  · rw [getD_of_lt _ _ hk1, ← getD_of_lt s 0 hk1]
    exact getD_sorted_mono hs (Nat.le_succ k) hk1
  · rw [getD_of_ge _ _ hk1]

/-- Linear interpolation into a sorted list is monotone in the fractional
index, over the in-range window `[0, n-1]`. -/
theorem interp_mono {s : List ℚ} (hs : s.Sorted (· ≤ ·)) {h h' : ℚ}
    (h0 : 0 ≤ h) (hhh : h ≤ h') (hup : h' ≤ (s.length : ℚ) - 1) :
    interp s h ≤ interp s h' := by
  have h0' : 0 ≤ h' := le_trans h0 hhh
  have hlen : 1 ≤ s.length := by
    rcases Nat.eq_zero_or_pos s.length with h0l | h1l
    · rw [h0l] at hup
      push_cast at hup
      linarith
    · exact h1l
  have hc : (((⌊h⌋).toNat : ℕ) : ℚ) = ((⌊h⌋ : ℤ) : ℚ) := toNat_floor_cast h0
  have hc' : (((⌊h'⌋).toNat : ℕ) : ℚ) = ((⌊h'⌋ : ℤ) : ℚ) := toNat_floor_cast h0'
  have hile : (((⌊h⌋).toNat : ℕ) : ℚ) ≤ h := by rw [hc]; exact Int.floor_le h
  have hilt : h < (((⌊h⌋).toNat : ℕ) : ℚ) + 1 := by
    rw [hc]; exact_mod_cast Int.lt_floor_add_one h
  have hile' : (((⌊h'⌋).toNat : ℕ) : ℚ) ≤ h' := by rw [hc']; exact Int.floor_le h'
  have hi'lt : (⌊h'⌋).toNat < s.length := floor_index_lt hlen hup
  have hii' : (⌊h⌋).toNat ≤ (⌊h'⌋).toNat :=
    Int.toNat_le_toNat (Int.floor_mono hhh)
  have hi_lt : (⌊h⌋).toNat < s.length := Nat.lt_of_le_of_lt hii' hi'lt
  simp only [interp]
  rcases Nat.eq_or_lt_of_le hii' with heq | hlt
  · rw [heq] at hile hilt ⊢
    have hd : 0 ≤ s.getD ((⌊h'⌋).toNat + 1) (s.getD ((⌊h'⌋).toNat) 0) -
        s.getD ((⌊h'⌋).toNat) 0 := by
      have := getD_succ_self_le hs hi'lt
      linarith
    have hmul := mul_le_mul_of_nonneg_right
      (show h - (((⌊h'⌋).toNat : ℕ) : ℚ) ≤ h' - (((⌊h'⌋).toNat : ℕ) : ℚ) by linarith) hd
    linarith
  · have h1n : (⌊h⌋).toNat + 1 < s.length := Nat.lt_of_le_of_lt hlt hi'lt
    have e1 : s.getD ((⌊h⌋).toNat + 1) (s.getD ((⌊h⌋).toNat) 0) =
        s.getD ((⌊h⌋).toNat + 1) 0 := by
      rw [getD_of_lt _ _ h1n, ← getD_of_lt s 0 h1n]
    have hd1 : 0 ≤ s.getD ((⌊h⌋).toNat + 1) 0 - s.getD ((⌊h⌋).toNat) 0 := by
      have := getD_sorted_mono hs (Nat.le_succ _) h1n
      linarith
    have step1 : s.getD ((⌊h⌋).toNat) 0 +
        (h - (((⌊h⌋).toNat : ℕ) : ℚ)) *
          (s.getD ((⌊h⌋).toNat + 1) (s.getD ((⌊h⌋).toNat) 0) -
            s.getD ((⌊h⌋).toNat) 0) ≤
        s.getD ((⌊h⌋).toNat + 1) 0 := by
      rw [e1]
      have hmul := mul_le_mul_of_nonneg_right
        (show h - (((⌊h⌋).toNat : ℕ) : ℚ) ≤ 1 by linarith) hd1
      linarith
    have step2 : s.getD ((⌊h⌋).toNat + 1) 0 ≤ s.getD ((⌊h'⌋).toNat) 0 :=
      getD_sorted_mono hs hlt hi'lt
    have hd' : 0 ≤ s.getD ((⌊h'⌋).toNat + 1) (s.getD ((⌊h'⌋).toNat) 0) -
        s.getD ((⌊h'⌋).toNat) 0 := by
      have := getD_succ_self_le hs hi'lt
      linarith
    have step3 : s.getD ((⌊h'⌋).toNat) 0 ≤
        s.getD ((⌊h'⌋).toNat) 0 +
          (h' - (((⌊h'⌋).toNat : ℕ) : ℚ)) *
            (s.getD ((⌊h'⌋).toNat + 1) (s.getD ((⌊h'⌋).toNat) 0) -
              s.getD ((⌊h'⌋).toNat) 0) := by
      have hmul := mul_nonneg (show (0:ℚ) ≤ h' - (((⌊h'⌋).toNat : ℕ) : ℚ) by linarith) hd'
      linarith
    linarith

/-- The sorted prices are a permutation of the prices: same length, same
members, and sorted. -/
theorem sortPrices_sorted (xs : List ℚ) : (sortPrices xs).Sorted (· ≤ ·) :=
  List.sorted_insertionSort _ xs

theorem sortPrices_length (xs : List ℚ) : (sortPrices xs).length = xs.length :=
  (List.perm_insertionSort _ xs).length_eq

theorem sortPrices_mem {xs : List ℚ} {x : ℚ} (hx : x ∈ sortPrices xs) :
    x ∈ xs :=
  (List.perm_insertionSort _ xs).mem_iff.mp hx

/-- The linear-interpolation quantile is monotone in `q` on `[0, 1]`:
the heart of the spec's `q1 ≤ median ≤ q3` property. -/
theorem quantile_mono {xs : List ℚ} (hne : xs ≠ []) {q q' : ℚ}
    (h0 : 0 ≤ q) (hqq : q ≤ q') (h1 : q' ≤ 1) :
    quantile xs q ≤ quantile xs q' := by
  unfold quantile
  have hxl : 0 < xs.length := List.length_pos.mpr hne
  have hN : (0:ℚ) ≤ (xs.length : ℚ) - 1 := by
    have hx1 : (1:ℚ) ≤ (xs.length : ℚ) := by exact_mod_cast hxl
    linarith
  apply interp_mono (sortPrices_sorted xs) (mul_nonneg h0 hN)
    (mul_le_mul_of_nonneg_right hqq hN)
  rw [sortPrices_length]
  calc q' * ((xs.length : ℚ) - 1) ≤ 1 * ((xs.length : ℚ) - 1) :=
        mul_le_mul_of_nonneg_right h1 hN
  _ = (xs.length : ℚ) - 1 := one_mul _

/-- On a list whose members all equal `c`, every in-range quantile is `c`. -/
theorem quantile_const {xs : List ℚ} {c : ℚ} (hne : xs ≠ [])
    (hall : ∀ p ∈ xs, p = c) {q : ℚ} (h0 : 0 ≤ q) (h1 : q ≤ 1) :
    quantile xs q = c := by
  unfold quantile
  have hxl : 0 < xs.length := List.length_pos.mpr hne
  have hx1 : (1:ℚ) ≤ (xs.length : ℚ) := by exact_mod_cast hxl
  have hN : (0:ℚ) ≤ (xs.length : ℚ) - 1 := by linarith
  have h0h : 0 ≤ q * ((xs.length : ℚ) - 1) := mul_nonneg h0 hN
  have huph : q * ((xs.length : ℚ) - 1) ≤ (sortPrices xs).length - 1 := by
    rw [sortPrices_length]
    calc q * ((xs.length : ℚ) - 1) ≤ 1 * ((xs.length : ℚ) - 1) :=
          mul_le_mul_of_nonneg_right h1 hN
    _ = (xs.length : ℚ) - 1 := one_mul _
  have hlen : 1 ≤ (sortPrices xs).length := by rw [sortPrices_length]; omega
  have hi_lt : (⌊q * ((xs.length : ℚ) - 1)⌋).toNat < (sortPrices xs).length :=
    floor_index_lt hlen huph
  have hmemc : ∀ {k : ℕ}, k < (sortPrices xs).length → (sortPrices xs).getD k 0 = c := by
    intro k hk
    rw [getD_of_lt _ _ hk]
    exact hall _ (sortPrices_mem (List.getElem_mem hk))
  simp only [interp]
  rw [hmemc hi_lt]
  rcases Nat.lt_or_ge ((⌊q * ((xs.length : ℚ) - 1)⌋).toNat + 1) (sortPrices xs).length
    with hk1 | hk1
  · rw [getD_of_lt _ _ hk1, ← getD_of_lt (sortPrices xs) 0 hk1, hmemc hk1]
    ring
  · rw [getD_of_ge _ _ hk1]
    ring

/-- The mean of a nonempty list whose members all equal `c` is `c`. -/
theorem mean_const {xs : List ℚ} {c : ℚ} (hne : xs ≠ [])
    (hall : ∀ p ∈ xs, p = c) : mean xs = c := by
  unfold mean
  have hsum : xs.sum = xs.length • c := List.sum_eq_card_nsmul xs c hall
  have hxl : 0 < xs.length := List.length_pos.mpr hne
  have hnz : ((xs.length : ℚ)) ≠ 0 := by
    exact_mod_cast Nat.pos_iff_ne_zero.mp hxl
  rw [hsum, nsmul_eq_mul, mul_comm, mul_div_assoc, div_self hnz, mul_one]

/-- The population variance of a list whose members all equal `c` is `0`. -/
theorem variance_const {xs : List ℚ} {c : ℚ} (hne : xs ≠ [])
    (hall : ∀ p ∈ xs, p = c) : variance xs = 0 := by
  unfold variance
  have hzero : (xs.map (fun x => (x - mean xs) ^ 2)).sum = 0 := by
    apply List.sum_eq_zero
    intro x hx
    rcases List.mem_map.mp hx with ⟨p, hp, rfl⟩
    rw [hall p hp, mean_const hne hall]
    ring
  rw [hzero, zero_div]

/-- The code's country lookup fails exactly on the countries absent from
the table (case-sensitive exact match). -/
theorem lookupPrice_eq_none_iff (t : Table) (c : String) :
    lookupPrice t c = none ↔ c ∉ t.map Prod.fst := by
  simp only [lookupPrice, Option.map_eq_none', List.head?_eq_none_iff,
    List.filter_eq_nil_iff, decide_eq_true_eq, List.mem_map, not_exists]
  constructor
  · intro hnone x hx
    exact hnone x hx.1 hx.2
  · intro habs a ha hc
    exact habs a ⟨ha, hc⟩

/-- Round-half-to-even never overshoots by more than one half. -/
theorem roundHalfEven_le (q : ℚ) : (roundHalfEven q : ℚ) ≤ q + 1 / 2 := by
  have hfl : ((⌊q⌋ : ℤ) : ℚ) ≤ q := Int.floor_le q
  unfold roundHalfEven
  split_ifs with a b c
  · linarith
  · push_cast
    push_neg at a
    linarith
  · linarith
  · push_cast
    push_neg at a
    linarith

/-- Round-half-to-even fixes the integers. -/
theorem roundHalfEven_int (m : ℤ) : roundHalfEven (m : ℚ) = m := by
  unfold roundHalfEven
  rw [Int.floor_intCast]
  norm_num

/-! ## Claim theorems -/

/-- C1: for any mean `mu` and (nonnegative) standard deviation `sigma` the
code computed, a country's price `value` is classified "Above 1 Std Dev"
(the spec's `above_1sd`) iff `value > mu + sigma`, "Below 1 Std Dev"
(`below_1sd`) iff `value < mu - sigma`, and "Within 1 Std Dev"
(`within_1sd`) otherwise — in particular ties at `mu ± sigma` fall into
the within band. -/
theorem C1_std_dev_band_classification (mu sigma value : ℚ) (hs : 0 ≤ sigma) :
    (std_dev_band mu sigma value = "Above 1 Std Dev" ↔ mu + sigma < value) ∧
    (std_dev_band mu sigma value = "Below 1 Std Dev" ↔ value < mu - sigma) ∧
    (std_dev_band mu sigma value = "Within 1 Std Dev" ↔
      mu - sigma ≤ value ∧ value ≤ mu + sigma) := by
  unfold std_dev_band
  split_ifs with h1 h2
  · exact ⟨iff_of_true rfl h1,
      iff_of_false (by decide) (fun h => by linarith),
      iff_of_false (by decide) (fun h => by linarith [h.2])⟩
  · exact ⟨iff_of_false (by decide) h1,
      iff_of_true rfl h2,
      iff_of_false (by decide) (fun h => by linarith [h.1])⟩
  · exact ⟨iff_of_false (by decide) h1,
      iff_of_false (by decide) h2,
      iff_of_true rfl ⟨le_of_not_lt h2, le_of_not_lt h1⟩⟩

/-- Witness for C1 at `mu = 0`, `sigma = 1`, `value = 5`. -/
theorem C1_std_dev_band_classification_witness :
    std_dev_band 0 1 5 = "Above 1 Std Dev" :=
  (C1_std_dev_band_classification 0 1 5 (by norm_num)).1.mpr (by norm_num)

/-- C2 counterexample: in the table with prices 1,2,3,4,5 the first
quartile is 2, and the country priced exactly 2 (a quartile edge) is
classified into Q2 — the HIGHER-numbered of the two adjacent buckets, not
the lower-numbered one the claim's tie-break sentence states. -/
theorem C2_counterexample :
    quantile (prices tableB) (1 / 4) = 2 ∧
    lookupPrice tableB "B" = some 2 ∧
    quartile_bucket (quantile (prices tableB) (1 / 4))
      (quantile (prices tableB) (1 / 2)) (quantile (prices tableB) (3 / 4)) 2 =
      "Second Quartile (Q2)" ∧
    "Second Quartile (Q2)" ≠ "Lowest Quartile (Q1)" := by
  have h1 : quantile (prices tableB) (1 / 4) = 2 := by
    norm_num [quantile, interp, sortPrices, prices, tableB,
      List.insertionSort, List.orderedInsert, Int.toNat_ofNat,
      show (0:ℤ).toNat = 0 from rfl, show (1:ℤ).toNat = 1 from rfl,
      show (2:ℤ).toNat = 2 from rfl, show (3:ℤ).toNat = 3 from rfl]
  have h2 : quantile (prices tableB) (1 / 2) = 3 := by
    norm_num [quantile, interp, sortPrices, prices, tableB,
      List.insertionSort, List.orderedInsert, Int.toNat_ofNat,
      show (0:ℤ).toNat = 0 from rfl, show (1:ℤ).toNat = 1 from rfl,
      show (2:ℤ).toNat = 2 from rfl, show (3:ℤ).toNat = 3 from rfl]
  have h3 : quantile (prices tableB) (3 / 4) = 4 := by
    norm_num [quantile, interp, sortPrices, prices, tableB,
      List.insertionSort, List.orderedInsert, Int.toNat_ofNat,
      show (0:ℤ).toNat = 0 from rfl, show (1:ℤ).toNat = 1 from rfl,
      show (2:ℤ).toNat = 2 from rfl, show (3:ℤ).toNat = 3 from rfl]
  refine ⟨h1, by rfl, ?_, by decide⟩
  rw [h1, h2, h3]
  norm_num [quartile_bucket]

/-- C2 amended: with `q1 ≤ median ≤ q3`, the bucket is Q1 iff
`price < q1`, Q2 iff `q1 ≤ price < median`, Q3 iff `median ≤ price < q3`,
and Q4 iff `price ≥ q3`; a price exactly equal to a quartile edge falls
into the HIGHER-numbered of the two adjacent buckets. -/
theorem C2_quartile_bucket_classification (q1 median q3 value : ℚ)
    (h12 : q1 ≤ median) (h23 : median ≤ q3) :
    (quartile_bucket q1 median q3 value = "Lowest Quartile (Q1)" ↔ value < q1) ∧
    (quartile_bucket q1 median q3 value = "Second Quartile (Q2)" ↔
      q1 ≤ value ∧ value < median) ∧
    (quartile_bucket q1 median q3 value = "Third Quartile (Q3)" ↔
      median ≤ value ∧ value < q3) ∧
    (quartile_bucket q1 median q3 value = "Highest Quartile (Q4)" ↔
      q3 ≤ value) := by
  unfold quartile_bucket
  split_ifs with h1 h2 h3
  · exact ⟨iff_of_true rfl h1,
      iff_of_false (by decide) (fun h => by linarith [h.1]),
      iff_of_false (by decide) (fun h => by linarith [h.1]),
      iff_of_false (by decide) (fun h => by linarith)⟩
  · exact ⟨iff_of_false (by decide) h1,
      iff_of_true rfl ⟨le_of_not_lt h1, h2⟩,
      iff_of_false (by decide) (fun h => by linarith [h.1]),
      iff_of_false (by decide) (fun h => by linarith)⟩
  · exact ⟨iff_of_false (by decide) h1,
      iff_of_false (by decide) (fun h => by linarith [h.2]),
      iff_of_true rfl ⟨le_of_not_lt h2, h3⟩,
      iff_of_false (by decide) (fun h => by linarith)⟩
  · exact ⟨iff_of_false (by decide) h1,
      iff_of_false (by decide) (fun h => by linarith [h.2]),
      iff_of_false (by decide) (fun h => by linarith [h.2]),
      iff_of_true rfl (le_of_not_lt h3)⟩

/-- Witness for C2's amended classification at `q1,median,q3 = 2,3,4`. -/
theorem C2_quartile_bucket_classification_witness :
    quartile_bucket 2 3 4 1 = "Lowest Quartile (Q1)" :=
  (C2_quartile_bucket_classification 2 3 4 1 (by norm_num) (by norm_num)).1.mpr
    (by norm_num)

/-- C3: a focus country's price is flagged an outlier exactly when it lies
strictly outside the Tukey fences built from the linear-interpolation
quartiles of all prices; a price exactly on a fence is not an outlier. -/
theorem C3_outlier_rule (t : Table) (c : String) (v : ℚ)
    (hv : lookupPrice t c = some v) :
    (is_outlier (quantile (prices t) (1 / 4)) (quantile (prices t) (3 / 4)) v = true ↔
      (v < quantile (prices t) (1 / 4) -
          1.5 * (quantile (prices t) (3 / 4) - quantile (prices t) (1 / 4)) ∨
       v > quantile (prices t) (3 / 4) +
          1.5 * (quantile (prices t) (3 / 4) - quantile (prices t) (1 / 4)))) ∧
    (v = quantile (prices t) (1 / 4) -
        1.5 * (quantile (prices t) (3 / 4) - quantile (prices t) (1 / 4)) →
      is_outlier (quantile (prices t) (1 / 4)) (quantile (prices t) (3 / 4)) v = false) ∧
    (v = quantile (prices t) (3 / 4) +
        1.5 * (quantile (prices t) (3 / 4) - quantile (prices t) (1 / 4)) →
      is_outlier (quantile (prices t) (1 / 4)) (quantile (prices t) (3 / 4)) v = false) := by
  have hne : prices t ≠ [] := by
    rintro hp
    rw [lookupPrice] at hv
    rcases t with _ | ⟨r, rest⟩
    · simp at hv
    · simp [prices] at hp
  have hq13 : quantile (prices t) (1 / 4) ≤ quantile (prices t) (3 / 4) :=
    quantile_mono hne (by norm_num) (by norm_num) (by norm_num)
  refine ⟨?_, ?_, ?_⟩
  · simp [is_outlier]
  · intro hlow
    simp only [is_outlier, Bool.or_eq_false_iff, decide_eq_false_iff_not, not_lt, gt_iff_lt]
    constructor
    · linarith [le_of_eq hlow]
    · linarith [le_of_eq hlow]
  · intro hup
    simp only [is_outlier, Bool.or_eq_false_iff, decide_eq_false_iff_not, not_lt, gt_iff_lt]
    constructor
    · linarith [le_of_eq hup]
    · linarith [le_of_eq hup]

/-- Witness for C3 at the worked table: "E"'s price 100 is an outlier. -/
theorem C3_outlier_rule_witness :
    is_outlier (quantile (prices table5) (1 / 4)) (quantile (prices table5) (3 / 4))
      100 = true := by
  have h1 : quantile (prices table5) (1 / 4) = 2 := by
    norm_num [quantile, interp, sortPrices, prices, table5,
      List.insertionSort, List.orderedInsert, Int.toNat_ofNat,
      show (0:ℤ).toNat = 0 from rfl, show (1:ℤ).toNat = 1 from rfl,
      show (2:ℤ).toNat = 2 from rfl, show (3:ℤ).toNat = 3 from rfl]
  have h3 : quantile (prices table5) (3 / 4) = 4 := by
    norm_num [quantile, interp, sortPrices, prices, table5,
      List.insertionSort, List.orderedInsert, Int.toNat_ofNat,
      show (0:ℤ).toNat = 0 from rfl, show (1:ℤ).toNat = 1 from rfl,
      show (2:ℤ).toNat = 2 from rfl, show (3:ℤ).toNat = 3 from rfl]
  exact (C3_outlier_rule table5 "E" 100 (by rfl)).1.mpr (Or.inr (by rw [h1, h3]; norm_num))

/-- C4: the code never raises an `EmptyTableError` — there is no emptiness
check at src lines 126-131; `np.mean` of the empty array evaluates to NaN
(modelled as `none`) and the dashboard proceeds to render the metrics.
This theorem evaluates the code's statistics block at the failing input
(the empty table): it returns the NaN result instead of failing. -/
theorem C4_empty_table_yields_nan : muOfTable [] = none := rfl

/-- C5: assessing a country name absent from the table (case-sensitive
exact match) signals `CountryNotFoundError`, and a present country never
does — an assessment is produced instead, never a default or null one. -/
theorem C5_country_not_found (stats : DistributionStats) (t : Table) (c : String) :
    (assess_country stats t c = .error .countryNotFound ↔ c ∉ t.map Prod.fst) ∧
    (c ∈ t.map Prod.fst → ∃ a, assess_country stats t c = .ok a) := by
  constructor
  · rw [← lookupPrice_eq_none_iff]
    unfold assess_country
    cases hl : lookupPrice t c with
    | none => simp
    | some v => simp
  · intro hc
    unfold assess_country
    cases hl : lookupPrice t c with
    | none => exact absurd ((lookupPrice_eq_none_iff t c).mp hl) (not_not_intro hc)
    | some v => exact ⟨_, rfl⟩

/-- Witness for C5: "Z" is not in the worked table, and assessing it
yields the `CountryNotFoundError`. -/
theorem C5_country_not_found_witness :
    assess_country ⟨0, 0, 0, 0, 0⟩ table5 "Z" = .error .countryNotFound :=
  (C5_country_not_found ⟨0, 0, 0, 0, 0⟩ table5 "Z").1.mpr (by simp [table5])

/-- C6 counterexample: for the worked table the population variance is
1522, so the population standard deviation is `√1522 > 38.87` — not
approximately 38.77 as the claim states (it is off by more than 0.1). -/
theorem C6_counterexample :
    variance (prices table5) = 1522 ∧
    (38.87 : ℝ) < Real.sqrt 1522 ∧
    ¬ |Real.sqrt 1522 - 38.77| ≤ (0.1 : ℝ) := by
  have hv : variance (prices table5) = 1522 := by
    norm_num [variance, mean, prices, table5]
  have hs : (38.87 : ℝ) < Real.sqrt 1522 := by
    rw [show (38.87 : ℝ) = |38.87| from (abs_of_pos (by norm_num)).symm] at *
    rw [Real.lt_sqrt (by norm_num)]
    norm_num
  refine ⟨hv, hs, ?_⟩
  intro habs
  rw [abs_le] at habs
  linarith [habs.2]

/-- C6 amended: the worked table has mean 22 and population variance 1522,
hence population standard deviation `√1522 ≈ 39.013` (the code rounds it
to 39.013; it lies strictly between 39.0125 and 39.0135) — not 38.77.
Country "E" (price 100) is an outlier, in the highest quartile bucket, and
above one standard deviation of the mean. -/
theorem C6_worked_example :
    mean (prices table5) = 22 ∧
    variance (prices table5) = 1522 ∧
    (39.0125 : ℝ) < Real.sqrt 1522 ∧
    Real.sqrt 1522 < (39.0135 : ℝ) ∧
    lookupPrice table5 "E" = some 100 ∧
    is_outlier (quantile (prices table5) (1 / 4)) (quantile (prices table5) (3 / 4))
      100 = true ∧
    quartile_bucket (quantile (prices table5) (1 / 4)) (quantile (prices table5) (1 / 2))
      (quantile (prices table5) (3 / 4)) 100 = "Highest Quartile (Q4)" ∧
    std_dev_band 22 (39013 / 1000) 100 = "Above 1 Std Dev" := by
  have h1 : quantile (prices table5) (1 / 4) = 2 := by
    norm_num [quantile, interp, sortPrices, prices, table5,
      List.insertionSort, List.orderedInsert, Int.toNat_ofNat,
      show (0:ℤ).toNat = 0 from rfl, show (1:ℤ).toNat = 1 from rfl,
      show (2:ℤ).toNat = 2 from rfl, show (3:ℤ).toNat = 3 from rfl]
  have h2 : quantile (prices table5) (1 / 2) = 3 := by
    norm_num [quantile, interp, sortPrices, prices, table5,
      List.insertionSort, List.orderedInsert, Int.toNat_ofNat,
      show (0:ℤ).toNat = 0 from rfl, show (1:ℤ).toNat = 1 from rfl,
      show (2:ℤ).toNat = 2 from rfl, show (3:ℤ).toNat = 3 from rfl]
  have h3 : quantile (prices table5) (3 / 4) = 4 := by
    norm_num [quantile, interp, sortPrices, prices, table5,
      List.insertionSort, List.orderedInsert, Int.toNat_ofNat,
      show (0:ℤ).toNat = 0 from rfl, show (1:ℤ).toNat = 1 from rfl,
      show (2:ℤ).toNat = 2 from rfl, show (3:ℤ).toNat = 3 from rfl]
  refine ⟨by norm_num [mean, prices, table5], by norm_num [variance, mean, prices, table5],
    ?_, ?_, by rfl, ?_, ?_, by norm_num [std_dev_band]⟩
  · rw [show (39.0125 : ℝ) = |39.0125| from (abs_of_pos (by norm_num)).symm]
    rw [Real.lt_sqrt (by norm_num)]
    norm_num
  · rw [Real.sqrt_lt' (by norm_num)]
    norm_num
  · rw [h1, h3]
    norm_num [is_outlier]
  · rw [h1, h2, h3]
    norm_num [quartile_bucket]

/-- C7 counterexample: the table of five countries all priced 2.0004 is
uniform (population variance 0, hence sigma 0), yet the code classifies
the common price "Above 1 Std Dev", not "Within 1 Std Dev": line 127
rounds the mean to `mu = round(2.0004, 3) = 2.0` before the band test at
line 246, and `2.0004 > 2.0 + 0`. -/
theorem C7_counterexample :
    (∀ p ∈ prices tableV, p = 2.0004) ∧
    variance (prices tableV) = 0 ∧
    mu (prices tableV) = 2 ∧
    std_dev_band (mu (prices tableV)) 0 2.0004 = "Above 1 Std Dev" ∧
    "Above 1 Std Dev" ≠ "Within 1 Std Dev" := by
  have hmu : mu (prices tableV) = 2 := by
    norm_num [mu, round3, roundHalfEven, mean, prices, tableV]
  refine ⟨?_, ?_, hmu, ?_, by decide⟩
  · intro p hp
    simp [prices, tableV] at hp
    rcases hp with rfl | rfl | rfl | rfl | rfl
    all_goals norm_num
  · norm_num [variance, mean, prices, tableV]
  · rw [hmu]
    norm_num [std_dev_band]

/-- C7 amended: on any table in which every price equals `c`, the
population variance is 0 (hence `sigma = round(0.0, 3) = 0`), both Tukey
fences coincide with `c` and no country is an outlier (the boundary is
inclusive); the band test, however, compares against the ROUNDED mean
`mu = round3 c` the code computes at line 127, so every country's band is
"Within 1 Std Dev" if and only if `c` equals its own 3-decimal rounding. -/
theorem C7_uniform_table (t : Table) (c : ℚ) (hne : t ≠ [])
    (hall : ∀ p ∈ prices t, p = c) :
    variance (prices t) = 0 ∧
    mu (prices t) = round3 c ∧
    ((∀ v ∈ prices t, std_dev_band (mu (prices t)) 0 v = "Within 1 Std Dev") ↔
      round3 c = c) ∧
    quantile (prices t) (1 / 4) -
      1.5 * (quantile (prices t) (3 / 4) - quantile (prices t) (1 / 4)) = c ∧
    quantile (prices t) (3 / 4) +
      1.5 * (quantile (prices t) (3 / 4) - quantile (prices t) (1 / 4)) = c ∧
    (∀ v ∈ prices t,
      is_outlier (quantile (prices t) (1 / 4)) (quantile (prices t) (3 / 4)) v = false) := by
  have hpne : prices t ≠ [] := by
    rcases t with _ | ⟨r, rest⟩
    · exact absurd rfl hne
    · simp [prices]
  have hmean : mean (prices t) = c := mean_const hpne hall
  have hmu : mu (prices t) = round3 c := by
    unfold mu
    rw [hmean]
  have hq1 : quantile (prices t) (1 / 4) = c :=
    quantile_const hpne hall (by norm_num) (by norm_num)
  have hq3 : quantile (prices t) (3 / 4) = c :=
    quantile_const hpne hall (by norm_num) (by norm_num)
  refine ⟨variance_const hpne hall, hmu, ?_, ?_, ?_, ?_⟩
  · constructor
    · intro hwithin
      obtain ⟨v, hv⟩ := List.exists_mem_of_ne_nil (prices t) hpne
      have hb := hwithin v hv
      rw [hmu, hall v hv] at hb
      unfold std_dev_band at hb
      split_ifs at hb with h1 h2
      · exact absurd hb (by decide)
      · exact absurd hb (by decide)
      · linarith [le_of_not_lt h1, le_of_not_lt h2]
    · intro heq v hv
      rw [hmu, heq, hall v hv]
      norm_num [std_dev_band]
  · rw [hq1, hq3]
    ring
  · rw [hq1, hq3]
    ring
  · intro v hv
    rw [hq1, hq3, hall v hv]
    norm_num [is_outlier]

/-- Witness for C7's amended claim at the spec's uniform example (five
countries at 2.0, a price equal to its own rounding). -/
theorem C7_uniform_table_witness :
    variance (prices tableU) = 0 ∧
    (∀ v ∈ prices tableU, std_dev_band (mu (prices tableU)) 0 v = "Within 1 Std Dev") ∧
    (∀ v ∈ prices tableU,
      is_outlier (quantile (prices tableU) (1 / 4)) (quantile (prices tableU) (3 / 4))
        v = false) := by
  have h := C7_uniform_table tableU 2 (by simp [tableU])
    (by
      intro p hp
      simp [prices, tableU] at hp
      rcases hp with rfl | rfl | rfl | rfl | rfl
      all_goals rfl)
  have hr : round3 (2 : ℚ) = 2 := by
    norm_num [round3, roundHalfEven]
  exact ⟨h.1, h.2.2.1.mpr hr, h.2.2.2.2.2⟩

/-- C8: for every non-empty table the linear-interpolation quartiles are
ordered: `q1 ≤ median ≤ q3`. -/
theorem C8_quartiles_ordered (t : Table) (hne : t ≠ []) :
    quantile (prices t) (1 / 4) ≤ quantile (prices t) (1 / 2) ∧
    quantile (prices t) (1 / 2) ≤ quantile (prices t) (3 / 4) := by
  have hpne : prices t ≠ [] := by
    rcases t with _ | ⟨r, rest⟩
    · exact absurd rfl hne
    · simp [prices]
  exact ⟨quantile_mono hpne (by norm_num) (by norm_num) (by norm_num),
    quantile_mono hpne (by norm_num) (by norm_num) (by norm_num)⟩

/-- Witness for C8 at the worked table. -/
theorem C8_quartiles_ordered_witness :
    quantile (prices table5) (1 / 4) ≤ quantile (prices table5) (1 / 2) ∧
    quantile (prices table5) (1 / 2) ≤ quantile (prices table5) (3 / 4) :=
  C8_quartiles_ordered table5 (by simp [table5])

/-- C9 counterexample: in the six-row table with prices 1..6, country "A"
is the (unique) minimum-priced country, and its percentile rank is 16.7 —
rounding pushes it strictly above `100/N = 100/6 ≈ 16.667`, so "100/N or
less" fails. -/
theorem C9_counterexample :
    lookupPrice table6 "A" = some 1 ∧
    (∀ p ∈ prices table6, 1 ≤ p) ∧
    percentileRank (prices table6) 1 = 167 / 10 ∧
    ¬ ((167 : ℚ) / 10 ≤ 100 / 6) := by
  refine ⟨by rfl, ?_, ?_, by norm_num⟩
  · intro p hp
    simp [prices, table6] at hp
    rcases hp with rfl | rfl | rfl | rfl | rfl | rfl
    all_goals norm_num
  · norm_num [percentileRank, roundHalfEven, prices, table6]

/-- C9 amended: for every non-empty table, a minimum-priced country's
percentile rank is at most `100·t/N + 0.05` where `t` is the number of
records tied at the minimum price (so at most `100/N + 0.05` when the
minimum is unique — rounding to one decimal can exceed `100/N` itself by
up to `0.05`); the maximum-priced country's percentile rank is exactly
100. -/
theorem C9_percentile_rank_extremes (t : Table) (hne : t ≠ []) :
    (∀ c v, lookupPrice t c = some v → (∀ p ∈ prices t, v ≤ p) →
      percentileRank (prices t) v ≤
        100 * ((prices t).countP (fun p => decide (p = v)) : ℚ) /
          ((prices t).length : ℚ) + 1 / 20) ∧
    (∀ c w, lookupPrice t c = some w → (∀ p ∈ prices t, p ≤ w) →
      percentileRank (prices t) w = 100) := by
  have hpne : prices t ≠ [] := by
    rcases t with _ | ⟨r, rest⟩
    · exact absurd rfl hne
    · simp [prices]
  have hlen : 0 < (prices t).length := List.length_pos.mpr hpne
  have hlq : (0:ℚ) < ((prices t).length : ℚ) := by exact_mod_cast hlen
  constructor
  · intro c v _hc hmin
    have hcount : (prices t).countP (fun p => decide (p ≤ v)) =
        (prices t).countP (fun p => decide (p = v)) := by
      apply List.countP_congr
      intro p hp
      have h1 := hmin p hp
      by_cases he : p = v
      · simp [he]
      · simp only [decide_eq_true_eq]
        constructor
        · intro h2
          exact absurd (le_antisymm h2 h1) he
        · intro h2
          exact absurd h2 he
    unfold percentileRank
    rw [hcount]
    have hr := roundHalfEven_le (100 * ((prices t).countP (fun p => decide (p = v)) : ℚ)
      / ((prices t).length : ℚ) * 10)
    have hdiv : (roundHalfEven (100 * ((prices t).countP (fun p => decide (p = v)) : ℚ)
        / ((prices t).length : ℚ) * 10) : ℚ) / 10 ≤
        (100 * ((prices t).countP (fun p => decide (p = v)) : ℚ)
          / ((prices t).length : ℚ) * 10 + 1 / 2) / 10 := by
      gcongr
    calc (roundHalfEven (100 * ((prices t).countP (fun p => decide (p = v)) : ℚ)
        / ((prices t).length : ℚ) * 10) : ℚ) / 10 ≤
        (100 * ((prices t).countP (fun p => decide (p = v)) : ℚ)
          / ((prices t).length : ℚ) * 10 + 1 / 2) / 10 := hdiv
    _ = 100 * ((prices t).countP (fun p => decide (p = v)) : ℚ)
          / ((prices t).length : ℚ) + 1 / 20 := by ring
  · intro c w _hc hmax
    have hcount : (prices t).countP (fun p => decide (p ≤ w)) = (prices t).length := by
      rw [List.countP_eq_length]
      intro p hp
      exact decide_eq_true (hmax p hp)
    unfold percentileRank
    rw [hcount]
    have hfrac : 100 * (((prices t).length : ℕ) : ℚ) / ((prices t).length : ℚ) * 10 =
        1000 := by
      field_simp
      ring
    rw [hfrac]
    have h1000 : roundHalfEven (1000 : ℚ) = 1000 := by
      exact_mod_cast roundHalfEven_int 1000
    rw [h1000]
    norm_num

/-- Witness for C9's amended claim at the six-row table: the max-priced
country "F" has rank exactly 100, and the (unique) min-priced country "A"
has rank at most `100·1/6 + 0.05`. -/
theorem C9_percentile_rank_extremes_witness :
    percentileRank (prices table6) 6 = 100 ∧
    percentileRank (prices table6) 1 ≤
      100 * ((prices table6).countP (fun p => decide (p = 1)) : ℚ) /
        ((prices table6).length : ℚ) + 1 / 20 := by
  constructor
  · refine (C9_percentile_rank_extremes table6 (by simp [table6])).2 "F" 6 (by rfl) ?_
    intro p hp
    simp [prices, table6] at hp
    rcases hp with rfl | rfl | rfl | rfl | rfl | rfl
    all_goals norm_num
  · refine (C9_percentile_rank_extremes table6 (by simp [table6])).1 "A" 1 (by rfl) ?_
    intro p hp
    simp [prices, table6] at hp
    rcases hp with rfl | rfl | rfl | rfl | rfl | rfl
    all_goals norm_num

/-- C10: a selected country whose price is exactly `mu`, `mu + sigma`,
`mu - sigma` or `mu - 2*sigma` satisfies none of the strict comparisons of
the position grouping, so it is assigned to no position group and is
therefore absent from every group of the position-analysis commentary. -/
theorem C10_boundary_prices_ungrouped (mu sigma : ℚ) (data : List (String × ℚ))
    (c : String) (v : ℚ) (hs : 0 ≤ sigma) (hcv : (c, v) ∈ data)
    (hv : v = mu ∨ v = mu + sigma ∨ v = mu - sigma ∨ v = mu - 2 * sigma)
    (huniq : ∀ p, (c, p) ∈ data → p = v) :
    position_group mu sigma v = none ∧
    ∀ g, c ∉ position_groups mu sigma data g := by
  have n1 : ¬(v < sigma + mu ∧ v > mu) := by
    rintro ⟨a, b⟩
    rcases hv with rfl | rfl | rfl | rfl
    all_goals linarith
  have n2 : ¬(v < mu ∧ v > mu - sigma) := by
    rintro ⟨a, b⟩
    rcases hv with rfl | rfl | rfl | rfl
    all_goals linarith
  have n3 : ¬(v < mu - sigma ∧ v > mu - 2 * sigma) := by
    rintro ⟨a, b⟩
    rcases hv with rfl | rfl | rfl | rfl
    all_goals linarith
  have n4 : ¬(v < mu - 2 * sigma) := by
    intro a
    rcases hv with rfl | rfl | rfl | rfl
    all_goals linarith
  have n5 : ¬(v > sigma + mu) := by
    intro a
    rcases hv with rfl | rfl | rfl | rfl
    all_goals linarith
  have hnone : position_group mu sigma v = none := by
    simp only [position_group, if_neg n1, if_neg n2, if_neg n3, if_neg n4, if_neg n5]
  refine ⟨hnone, ?_⟩
  intro g hg
  simp only [position_groups, List.mem_map] at hg
  obtain ⟨r, hr, hrc⟩ := hg
  rw [List.mem_filter] at hr
  obtain ⟨hrmem, hrp⟩ := hr
  have hr2 : r.2 = v := by
    apply huniq r.2
    rw [← hrc, Prod.mk.eta]
    exact hrmem
  rw [decide_eq_true_eq, hr2, hnone] at hrp
  exact Option.noConfusion hrp

/-- Witness for C10: a country priced exactly at the mean lands in no
position group. -/
theorem C10_boundary_prices_ungrouped_witness :
    position_group 5 2 5 = none ∧
    ∀ g, "X" ∉ position_groups 5 2 [("X", 5)] g :=
  C10_boundary_prices_ungrouped 5 2 [("X", 5)] "X" 5 (by norm_num) (by simp)
    (Or.inl rfl)
    (by
      intro p hp
      simp at hp
      exact hp)

end Gasprice
